import Mathlib

/-!
Verification development for the `@tessen/type-gen` module (src/index.ts).

The module turns localization source trees (mappings from key to either a
template string or a nested mapping) into TypeScript declaration text.  Core
functions embedded here, each translated from the TypeScript source:

* `extractParameters`   — scans a template string with the regex
  `\x7b(\d+)(?::([^\x7d]+))?\x7d` (global flag) and returns the deduplicated,
  first-seen-ordered parameter list;
* `generateFunctionSignature` — renders a parameter list as a function type;
* `deepMerge` / `mergeLocaleData` — the in-place recursive merge of plain
  locale-data objects, modelled functionally on association lists kept in
  JavaScript own-property enumeration order (the order `Object.entries`
  iterates): array-index-like keys first in ascending numeric order, then
  the remaining keys in insertion order; the JavaScript `TypeError` that a
  recursion into a `null` target would raise is modelled with `Except`;
* `processLocaleData`   — the recursive declaration emitter;
* `generateTessenDeclaration` / `generateLocalizationTypes` — the per-client
  wrapping and the orchestrator.

JavaScript values that can occur at runtime in a `PlainLocaleData` position
are modelled by `JSValue`: strings, plain objects, numbers, booleans and
`null`.  (Arrays are excluded from the model: the declared input type
`PlainLocaleData` has only string and object values, and the source's
`Array.isArray` test is purely defensive.)
-/

/-- A runtime JavaScript value in a locale-data position: a template string,
a plain object (its field list kept in own-property enumeration order, the
order `Object.entries` presents: array-index-like keys first in ascending
numeric order, then the remaining keys in insertion order), a number, a
boolean, or `null`. -/
inductive JSValue where
  | str (s : String)
  | obj (fields : List (String × JSValue))
  | num (n : Int)
  | boolean (b : Bool)
  | null

/-- Reads `target[key]` on an insertion-ordered object. -/
def lookupField (k : String) : List (String × JSValue) → Option JSValue
  | [] => none
  | (k', v) :: rest => if k' = k then some v else lookupField k rest

/-- The numeric value of a run of decimal digits. -/
def decimalValue (cs : List Char) : Nat :=
  cs.foldl (fun acc c => acc * 10 + (c.toNat - 48)) 0

/-- An ECMAScript array-index string: the canonical decimal form (digits
only, with no leading zero except `"0"` itself) of an integer below
`2 ^ 32 - 1`.  JavaScript own-property enumeration lists such keys first,
in ascending numeric order, regardless of when they were created; every
other string key follows in creation order. -/
def isArrayIndex (s : String) : Bool :=
  match s.data with
  | [] => false
  | c :: rest =>
      (c :: rest).all Char.isDigit
        && (decide (c ≠ '0') || rest.isEmpty)
        && decide (decimalValue (c :: rest) < 4294967295)

/-- Assignment to an existing key: the value changes in place, the
enumeration position does not. -/
def updateField : List (String × JSValue) → String → JSValue → List (String × JSValue)
  | [], k, v => [(k, v)]
  | (k', v') :: rest, k, v =>
      if k' = k then (k, v) :: rest else (k', v') :: updateField rest k v

/-- Creation of a new key, placed where JavaScript own-property
enumeration will present it: an array-index key enters the leading
ascending run of index keys; any other key is appended at the end. -/
def insertFieldNew : List (String × JSValue) → String → JSValue → List (String × JSValue)
  | [], k, v => [(k, v)]
  | (k', v') :: rest, k, v =>
      if isArrayIndex k
          && (!(isArrayIndex k') || decide (decimalValue k.data < decimalValue k'.data)) then
        (k, v) :: (k', v') :: rest
      else
        (k', v') :: insertFieldNew rest k v

/-- Models the JavaScript assignment `target[key] = v`, with the object
kept in own-property enumeration order (the order `Object.entries`
iterates): an existing key keeps its position and gets the new value; a
new key is created at its enumeration position — hoisted into the
ascending run of array-index keys when it is an array index, appended at
the end otherwise. -/
def setField (fields : List (String × JSValue)) (k : String) (v : JSValue) :
    List (String × JSValue) :=
  if k ∈ fields.map Prod.fst then updateField fields k v else insertFieldNew fields k v

/-- One attempted match of the placeholder regex body starting just after an
opening brace: `(\d+)(?::([^\x7d]+))?\x7d`.  On success, returns the resolved
parameter name (`match[2] || "_" + match[1]`) and the remaining characters
after the match.  The regex is greedy and this two-part grammar is
deterministic: the digit run is maximal, and the optional label run is the
maximal run of non-close-brace characters and must be nonempty. -/
def matchPlaceholder (cs : List Char) : Option (String × List Char) :=
  let digits := cs.takeWhile Char.isDigit
  let afterDigits := cs.dropWhile Char.isDigit
  if digits.isEmpty then none
  else
    match afterDigits with
    | '\x7d' :: rest => some ("_" ++ String.mk digits, rest)
    | ':' :: afterColon =>
        let label := afterColon.takeWhile (fun c => c ≠ '\x7d')
        let afterLabel := afterColon.dropWhile (fun c => c ≠ '\x7d')
        if label.isEmpty then none
        else
          match afterLabel with
          | '\x7d' :: rest => some (String.mk label, rest)
          | _ => none
    | _ => none

/-- The length of `dropWhile` is at most the length of the input. -/
theorem dropWhile_length_le {α : Type} (p : α → Bool) (l : List α) :
    (l.dropWhile p).length ≤ l.length := by
  induction l with
  | nil => simp
  | cons c rest ih =>
      rw [List.dropWhile_cons]
      split
      · exact Nat.le_succ_of_le ih
      · simp

/-- A successful placeholder match consumes at least one character. -/
theorem matchPlaceholder_length {cs : List Char} {name : String} {rest : List Char}
    (h : matchPlaceholder cs = some (name, rest)) : rest.length < cs.length := by
  have hlen : (cs.dropWhile Char.isDigit).length ≤ cs.length :=
    dropWhile_length_le _ _
  have htail : ∀ c (tail : List Char), cs.dropWhile Char.isDigit = c :: tail →
      tail.length < cs.length := by
    intro c tail hEq
    rw [hEq] at hlen
    simp only [List.length_cons] at hlen
    omega
  simp only [matchPlaceholder] at h
  split at h
  · exact absurd h (by simp)
  · split at h
    case h_1 rest' hEq =>
      simp only [Option.some.injEq, Prod.mk.injEq] at h
      rw [← h.2]
      exact htail _ _ hEq
    case h_2 afterColon hEq =>
      have hcolon : afterColon.length < cs.length := htail _ _ hEq
      have hlen2 : (afterColon.dropWhile (fun c => decide (c ≠ '\x7d'))).length ≤ afterColon.length :=
        dropWhile_length_le _ _
      split at h
      · exact absurd h (by simp)
      · split at h
        case h_1 rest' hEq2 =>
          simp only [Option.some.injEq, Prod.mk.injEq] at h
          rw [← h.2]
          rw [hEq2] at hlen2
          simp only [List.length_cons] at hlen2
          omega
        case h_2 => exact absurd h (by simp)
    case h_3 => exact absurd h (by simp)

/-- One extracted parameter: a resolved name plus its TypeScript type
(always the text `string` in the current implementation). -/
structure ExtractedParameter where
  name : String
  type : String
deriving DecidableEq, Repr

/-- The scanning loop of `extractParameters`: walk the template left to
right; at each opening brace attempt a placeholder match.  A successful match
is recorded only if its resolved name has not been seen before (the `seen`
set of the source); scanning resumes after the match.  A failed attempt at
an opening brace resumes at the next character, exactly as the regex engine
retries at the next start index. -/
def extractLoop : (cs : List Char) → List String → List ExtractedParameter
  | [], _ => []
  | c :: rest, seen =>
    if c = '\x7b' then
      match hm : matchPlaceholder rest with
      | some (pname, rest') =>
          if pname ∈ seen then extractLoop rest' seen
          else ⟨pname, "string"⟩ :: extractLoop rest' (pname :: seen)
      | none => extractLoop rest seen
    else extractLoop rest seen
termination_by cs _ => cs.length
decreasing_by
  all_goals simp only [List.length_cons]
  · exact Nat.lt_succ_of_lt (matchPlaceholder_length hm)
  · exact Nat.lt_succ_of_lt (matchPlaceholder_length hm)
  · omega
  · omega

/-- Non-dependent unfolding of `extractLoop` at a cons cell, usable as a
rewrite rule when evaluating concrete templates. -/
theorem extractLoop_cons (c : Char) (rest : List Char) (seen : List String) :
    extractLoop (c :: rest) seen =
      if c = '\x7b' then
        match matchPlaceholder rest with
        | some (pname, rest') =>
            if pname ∈ seen then extractLoop rest' seen
            else ⟨pname, "string"⟩ :: extractLoop rest' (pname :: seen)
        | none => extractLoop rest seen
      else extractLoop rest seen := by
  rw [extractLoop]
  by_cases hc : c = '\x7b'
  · rw [if_pos hc, if_pos hc]
    split
    next pname rest' hm => rw [hm]
    next hm => rw [hm]
  · rw [if_neg hc, if_neg hc]

/-- `extractParameters` from src/index.ts: scan the template with the global
regex `\x7b(\d+)(?::([^\x7d]+))?\x7d`, resolve each match to a name
(`match[2] || "_" + match[1]`), and keep only first occurrences of each
name, in first-seen order. -/
def extractParameters (value : String) : List ExtractedParameter :=
  extractLoop value.data []

/-- The same scan without the `seen` set: every regex match, in match order,
duplicates included. -/
def rawMatchLoop : (cs : List Char) → List ExtractedParameter
  | [] => []
  | c :: rest =>
    if c = '\x7b' then
      match hm : matchPlaceholder rest with
      | some (pname, rest') => ⟨pname, "string"⟩ :: rawMatchLoop rest'
      | none => rawMatchLoop rest
    else rawMatchLoop rest
termination_by cs => cs.length
decreasing_by
  all_goals simp only [List.length_cons]
  · exact Nat.lt_succ_of_lt (matchPlaceholder_length hm)
  · omega
  · omega

/-- Non-dependent unfolding of `rawMatchLoop` at a cons cell. -/
theorem rawMatchLoop_cons (c : Char) (rest : List Char) :
    rawMatchLoop (c :: rest) =
      if c = '\x7b' then
        match matchPlaceholder rest with
        | some (pname, rest') => ⟨pname, "string"⟩ :: rawMatchLoop rest'
        | none => rawMatchLoop rest
      else rawMatchLoop rest := by
  rw [rawMatchLoop]
  by_cases hc : c = '\x7b'
  · rw [if_pos hc, if_pos hc]
    split
    next pname rest' hm => rw [hm]
    next hm => rw [hm]
  · rw [if_neg hc, if_neg hc]

/-- Keep the first occurrence of each parameter name not already in `seen`;
drop (do not merge) later occurrences. -/
def dedupFrom (seen : List String) : List ExtractedParameter → List ExtractedParameter
  | [] => []
  | p :: rest =>
      if p.name ∈ seen then dedupFrom seen rest
      else p :: dedupFrom (p.name :: seen) rest

/-- `generateFunctionSignature` from src/index.ts. -/
def generateFunctionSignature (value : String) : String :=
  let parameters := extractParameters value
  if parameters.isEmpty then "() => string"
  else
    "(" ++ String.intercalate ", " (parameters.map fun p => p.name ++ ": " ++ p.type)
        ++ ") => string"

/-- `deepMerge` from src/index.ts, modelled functionally: the first argument
is the mutable `target` object, the second the `source`; the result is the
target after the in-place merge.  For each `[key, value]` of the source, in
order: if `value` is a plain object (`typeof value === 'object' &&
value !== null && !Array.isArray(value)`), then ensure the target holds an
object at `key` — the source replaces `target[key]` with `\x7b\x7d` exactly when
the key is absent or `typeof target[key] !== 'object'` (so an existing
`null`, whose `typeof` is `'object'`, is NOT replaced) — and recurse;
otherwise assign `target[key] = value` directly.  Recursing into a `null`
target raises a `TypeError` in JavaScript as soon as the recursion tries to
assign a property; this is modelled by `Except.error`. -/
def deepMerge : (target : List (String × JSValue)) → (source : List (String × JSValue)) →
    Except String (List (String × JSValue))
  | target, [] => .ok target
  | target, (k, v) :: rest =>
    match v with
    | .obj fs =>
        match lookupField k target with
        | some (.obj tfs) =>
            match deepMerge tfs fs with
            | .ok merged => deepMerge (setField target k (.obj merged)) rest
            | .error e => .error e
        | some .null =>
            if fs.isEmpty then deepMerge target rest
            else .error "TypeError: cannot set properties of null"
        | _ =>
            match deepMerge [] fs with
            | .ok merged => deepMerge (setField target k (.obj merged)) rest
            | .error e => .error e
    | _ => deepMerge (setField target k v) rest
termination_by _ source => sizeOf source
decreasing_by all_goals simp only [Prod.mk.sizeOf_spec, JSValue.obj.sizeOf_spec,
  List.cons.sizeOf_spec] <;> omega

/-- `mergeLocaleData` from src/index.ts: left fold of `deepMerge` over the
argument list, starting from the empty object. -/
def mergeLocaleDataLoop (merged : List (String × JSValue)) :
    List (List (String × JSValue)) → Except String (List (String × JSValue))
  | [] => .ok merged
  | localeData :: rest =>
      match deepMerge merged localeData with
      | .ok merged' => mergeLocaleDataLoop merged' rest
      | .error e => .error e

/-- Entry point of the merge: `mergeLocaleData(...localeDataArray)`. -/
def mergeLocaleData (localeDataArray : List (List (String × JSValue))) :
    Except String (List (String × JSValue)) :=
  mergeLocaleDataLoop [] localeDataArray

/-- The indentation used by `processLocaleData`: `'  '.repeat(n)`. -/
def indentStr (n : Nat) : String :=
  String.mk (List.replicate (2 * n) ' ')

/-- The line list built by `processLocaleData` from src/index.ts for one
object: a string value yields one line `key: signature;`; an object value
(`typeof value === 'object' && value !== null`) yields the header line
`key: \x7b`, one element holding the whole recursively rendered sub-block, and
the footer line `\x7d;`; any other value (number, boolean, `null`) yields no
line at all.  The indent of a line at recursion depth `depth` is
`'  '.repeat(depth + 3)`. -/
def processEntries : (data : List (String × JSValue)) → Nat → List String
  | [], _ => []
  | (key, value) :: rest, depth =>
      (match value with
       | .str s =>
           [indentStr (depth + 3) ++ key ++ ": " ++ generateFunctionSignature s ++ ";"]
       | .obj fs =>
           [indentStr (depth + 3) ++ key ++ ": \x7b",
            String.intercalate "\n" (processEntries fs (depth + 1)),
            indentStr (depth + 3) ++ "\x7d;"]
       | _ => []) ++ processEntries rest depth
termination_by data _ => sizeOf data
decreasing_by all_goals simp only [Prod.mk.sizeOf_spec, JSValue.obj.sizeOf_spec,
  List.cons.sizeOf_spec] <;> omega

/-- `processLocaleData` from src/index.ts: the lines, joined with `'\n'`. -/
def processLocaleData (data : List (String × JSValue)) (depth : Nat := 0) : String :=
  String.intercalate "\n" (processEntries data depth)

/-- A Shape Node in the sense of the design: a template string, or a plain
object all of whose values are themselves Shape Nodes.  This is exactly the
declared TypeScript input type `PlainLocaleData` (numbers, booleans, `null`
and arrays are outside it). -/
def isShape : JSValue → Bool
  | .str _ => true
  | .obj [] => true
  | .obj ((_, v) :: rest) => isShape v && isShape (.obj rest)
  | _ => false

/-- A Tessen instance, reduced to what `extractPlainLocaleDataFromTessen`
reads from it: the ordered list of cached content entries' locale-data
trees (`contentEntry.data`), flattening the two nested loops over
`tessen.cache.locales` and each locale's raw `contents` collection.  The
cache plumbing itself (the `Collection` type, the private-field access, and
the fallback that reconstructs templates from compiled functions) is an
external collaborator and not part of the core. -/
structure Tessen where
  contentData : List (List (String × JSValue))

/-- `extractPlainLocaleDataFromTessen` from src/index.ts, over the modelled
cache view: start from `\x7b\x7d` and `deepMerge` every content entry's data in
order. -/
def extractPlainLocaleDataFromTessen (tessen : Tessen) :
    Except String (List (String × JSValue)) :=
  mergeLocaleDataLoop [] tessen.contentData

/-- The `clientSuffix` computed by `generateTessenDeclaration`:
`' // Client ' + (clientIndex + 1)` when a client index is given, else
the empty string. -/
def clientSuffix : Option Nat → String
  | some clientIndex => " // Client " ++ toString (clientIndex + 1)
  | none => ""

/-- `generateTessenDeclaration` from src/index.ts: merge the instance's
locale data, render the interface body, and wrap it in the fixed
`declare global \x7b namespace Tessen \x7b interface Localization \x7b ... \x7d \x7d \x7d`
boilerplate followed by the `export \x7b \x7d;` marker. -/
def generateTessenDeclaration (tessen : Tessen) (clientIndex : Option Nat) :
    Except String String :=
  match extractPlainLocaleDataFromTessen tessen with
  | .error e => .error e
  | .ok localeData =>
      .ok ("declare global \x7b" ++ clientSuffix clientIndex
        ++ "\n  namespace Tessen \x7b\n    interface Localization \x7b\n"
        ++ processLocaleData localeData
        ++ "\n    \x7d\n  \x7d\n\x7d\n    \nexport \x7b \x7d;")

/-- `TypeGenerationConfig` from src/index.ts (the optional output path is
consumed only by the out-of-scope file writer). -/
structure TypeGenerationConfig where
  tessens : List Tessen
  outputPath : Option String := none

/-- The `for` loop of `generateLocalizationTypes`: visit the (index,
instance) pairs in order, generate each declaration (with a client index
exactly when `total > 1`), and collect the results; an error propagates
immediately, as a thrown exception would. -/
def generateDeclarationsLoop (total : Nat) :
    List (Nat × Tessen) → Except String (List String)
  | [] => .ok []
  | (i, tessen) :: rest =>
      match generateTessenDeclaration tessen (if total > 1 then some i else none) with
      | .ok declaration =>
          match generateDeclarationsLoop total rest with
          | .ok declarations => .ok (declaration :: declarations)
          | .error e => .error e
      | .error e => .error e

/-- `generateLocalizationTypes` from src/index.ts: one declaration block per
Tessen instance, in input order; the i-th block is generated with client
index `i` exactly when there is more than one instance; blocks are joined
with `'\n\n'`. -/
def generateLocalizationTypes (config : TypeGenerationConfig) : Except String String :=
  match generateDeclarationsLoop config.tessens.length config.tessens.enum with
  | .ok declarations => .ok (String.intercalate "\n\n" declarations)
  | .error e => .error e

example : extractParameters "hello" = [] := by
  simp [extractParameters, extractLoop_cons, extractLoop]

example : extractParameters "\x7b0:user\x7d is now a \x7b1:role\x7d" =
    [⟨"user", "string"⟩, ⟨"role", "string"⟩] := by
  simp +decide [extractParameters, extractLoop_cons, extractLoop, matchPlaceholder,
    List.takeWhile_cons, List.dropWhile_cons]

example : extractParameters "\x7b0\x7d is now a \x7b1\x7d" =
    [⟨"_0", "string"⟩, ⟨"_1", "string"⟩] := by
  simp +decide [extractParameters, extractLoop_cons, extractLoop, matchPlaceholder,
    List.takeWhile_cons, List.dropWhile_cons]

example : extractParameters "\x7b0:user\x7d greets \x7b1:user\x7d" =
    [⟨"user", "string"⟩] := by
  simp +decide [extractParameters, extractLoop_cons, extractLoop, matchPlaceholder,
    List.takeWhile_cons, List.dropWhile_cons]

example : extractParameters "\x7b1\x7d\x7b0\x7d" =
    [⟨"_1", "string"⟩, ⟨"_0", "string"⟩] := by
  simp +decide [extractParameters, extractLoop_cons, extractLoop, matchPlaceholder,
    List.takeWhile_cons, List.dropWhile_cons]

example : extractParameters "\x7b0 is unterminated" = [] := by
  simp +decide [extractParameters, extractLoop_cons, extractLoop, matchPlaceholder,
    List.takeWhile_cons, List.dropWhile_cons]

example : generateFunctionSignature "\x7b0:user\x7d is now a \x7b1:role\x7d" =
    "(user: string, role: string) => string" := by
  simp +decide [generateFunctionSignature, extractParameters, extractLoop_cons,
    extractLoop, matchPlaceholder, List.takeWhile_cons, List.dropWhile_cons,
    String.intercalate]

example : mergeLocaleData [[("a", .str "1"), ("b", .str "2")],
    [("c", .str "3"), ("b", .str "4")]] =
    .ok [("a", .str "1"), ("b", .str "4"), ("c", .str "3")] := by
  simp [mergeLocaleData, mergeLocaleDataLoop, deepMerge, lookupField, setField, updateField, insertFieldNew, isArrayIndex, decimalValue]

example : mergeLocaleData [[("k", .obj [("x", .str "a")])], [("k", .str "b")]] =
    .ok [("k", .str "b")] := by
  simp [mergeLocaleData, mergeLocaleDataLoop, deepMerge, lookupField, setField, updateField, insertFieldNew, isArrayIndex, decimalValue]

example : processLocaleData [("hello", .str "hi"), ("nested", .obj [("bye", .str "x")])] =
    "      hello: () => string;\n      nested: \x7b\n        bye: () => string;\n      \x7d;" := by
  simp +decide [processLocaleData, processEntries, generateFunctionSignature,
    extractParameters, extractLoop_cons, extractLoop, matchPlaceholder, indentStr,
    String.intercalate, List.replicate]

/-- The scan with the seen-set is the raw scan filtered down to first
occurrences of each name: a later occurrence of an already-produced name is
dropped without merging and without error. -/
theorem extractLoop_eq_dedupFrom (cs : List Char) (seen : List String) :
    extractLoop cs seen = dedupFrom seen (rawMatchLoop cs) := by
  induction cs, seen using extractLoop.induct with
  | case1 seen => simp [extractLoop, rawMatchLoop, dedupFrom]
  | case2 rest seen pname rest' hm hmem ih =>
      rw [extractLoop_cons, rawMatchLoop_cons, if_pos rfl, if_pos rfl, hm]
      simp [dedupFrom, hmem, ih]
  | case3 rest seen pname rest' hm hmem ih =>
      rw [extractLoop_cons, rawMatchLoop_cons, if_pos rfl, if_pos rfl, hm]
      simp [dedupFrom, hmem, ih]
  | case4 rest seen hm ih =>
      rw [extractLoop_cons, rawMatchLoop_cons, if_pos rfl, if_pos rfl, hm, ih]
  | case5 c rest seen hc ih =>
      rw [extractLoop_cons, rawMatchLoop_cons, if_neg hc, if_neg hc, ih]

/-- Everything the deduplicating pass emits has a name outside `seen`. -/
theorem dedupFrom_mem_not_seen {seen : List String} {l : List ExtractedParameter}
    {p : ExtractedParameter} (hp : p ∈ dedupFrom seen l) : p.name ∉ seen := by
  induction l generalizing seen with
  | nil => simp [dedupFrom] at hp
  | cons q rest ih =>
      by_cases hq : q.name ∈ seen
      · rw [dedupFrom, if_pos hq] at hp
        exact ih hp
      · rw [dedupFrom, if_neg hq] at hp
        rcases List.mem_cons.mp hp with rfl | hp
        · exact hq
        · intro hmem
          exact ih hp (List.mem_cons_of_mem _ hmem)

/-- The deduplicating pass emits pairwise-distinct names. -/
theorem dedupFrom_name_nodup (seen : List String) (l : List ExtractedParameter) :
    ((dedupFrom seen l).map ExtractedParameter.name).Nodup := by
  induction l generalizing seen with
  | nil => simp [dedupFrom]
  | cons q rest ih =>
      by_cases hq : q.name ∈ seen
      · rw [dedupFrom, if_pos hq]
        exact ih seen
      · rw [dedupFrom, if_neg hq]
        simp only [List.map_cons, List.nodup_cons]
        refine ⟨fun hmem => ?_, ih _⟩
        obtain ⟨p, hp, hpe⟩ := List.mem_map.mp hmem
        exact dedupFrom_mem_not_seen hp (hpe ▸ List.mem_cons_self _ _)

/-- The deduplicating pass only keeps elements of its input. -/
theorem dedupFrom_subset {seen : List String} {l : List ExtractedParameter}
    {p : ExtractedParameter} (hp : p ∈ dedupFrom seen l) : p ∈ l := by
  induction l generalizing seen with
  | nil => simp [dedupFrom] at hp
  | cons q rest ih =>
      by_cases hq : q.name ∈ seen
      · rw [dedupFrom, if_pos hq] at hp
        exact List.mem_cons_of_mem _ (ih hp)
      · rw [dedupFrom, if_neg hq] at hp
        rcases List.mem_cons.mp hp with rfl | hp
        · exact List.mem_cons_self _ _
        · exact List.mem_cons_of_mem _ (ih hp)

/-- Every raw match carries type `string`. -/
theorem rawMatchLoop_type_string : ∀ (cs : List Char), ∀ p ∈ rawMatchLoop cs, p.type = "string" := by
  intro cs
  induction cs using rawMatchLoop.induct with
  | case1 => simp [rawMatchLoop]
  | case2 rest pname rest' hm ih =>
      rw [rawMatchLoop_cons, if_pos rfl, hm]
      intro p hp
      rcases List.mem_cons.mp hp with rfl | hp
      · rfl
      · exact ih p hp
  | case3 rest hm ih =>
      rw [rawMatchLoop_cons, if_pos rfl, hm]
      exact ih
  | case4 c rest hc ih =>
      rw [rawMatchLoop_cons, if_neg hc]
      exact ih

/-- C1: the placeholder parser scans the template left to right for
`\x7b<digits>\x7d` / `\x7b<digits>:<label>\x7d` occurrences; each match resolves to the
label if present, else `_` ++ digits, always with type "string"; a parameter
is appended only when its name is new in this template (a later occurrence
of a seen name is dropped, not merged, with no error), and the result is in
first-seen order, not sorted by index. -/
theorem c1_extractParameters_first_seen_order :
    (∀ value : String, extractParameters value = dedupFrom [] (rawMatchLoop value.data))
    ∧ (∀ value : String, ∀ p ∈ extractParameters value, p.type = "string")
    ∧ (∀ value : String, ((extractParameters value).map ExtractedParameter.name).Nodup)
    ∧ extractParameters "\x7b0:user\x7d greets \x7b1:user\x7d" = [⟨"user", "string"⟩]
    ∧ extractParameters "\x7b1\x7d\x7b0\x7d" = [⟨"_1", "string"⟩, ⟨"_0", "string"⟩] := by
  refine ⟨fun value => extractLoop_eq_dedupFrom value.data [], ?_, ?_, ?_, ?_⟩
  · intro value p hp
    rw [extractParameters, extractLoop_eq_dedupFrom] at hp
    exact rawMatchLoop_type_string value.data p (dedupFrom_subset hp)
  · intro value
    rw [extractParameters, extractLoop_eq_dedupFrom]
    exact dedupFrom_name_nodup [] _
  · simp +decide [extractParameters, extractLoop_cons, extractLoop, matchPlaceholder,
      List.takeWhile_cons, List.dropWhile_cons]
  · simp +decide [extractParameters, extractLoop_cons, extractLoop, matchPlaceholder,
      List.takeWhile_cons, List.dropWhile_cons]

/-- Witness for C1 at a concrete template. -/
theorem c1_extractParameters_first_seen_order_witness :
    (⟨"user", "string"⟩ : ExtractedParameter).type = "string" :=
  c1_extractParameters_first_seen_order.2.1 "\x7b0:user\x7d greets \x7b1:user\x7d"
    ⟨"user", "string"⟩ (by
      simp +decide [extractParameters, extractLoop_cons, extractLoop, matchPlaceholder,
        List.takeWhile_cons, List.dropWhile_cons])

/-- Reading back the key just updated in place yields the new value. -/
theorem lookupField_updateField_self (tgt : List (String × JSValue)) (k : String) (v : JSValue) :
    lookupField k (updateField tgt k v) = some v := by
  induction tgt with
  | nil => simp [updateField, lookupField]
  | cons e rest ih =>
      obtain ⟨k0, v0⟩ := e
      by_cases hk : k0 = k
      · rw [updateField, if_pos hk, lookupField, if_pos rfl]
      · rw [updateField, if_neg hk, lookupField, if_neg hk]
        exact ih

/-- Reading back a freshly created key yields the assigned value. -/
theorem lookupField_insertFieldNew_self {tgt : List (String × JSValue)} {k : String}
    (hmem : k ∉ tgt.map Prod.fst) (v : JSValue) :
    lookupField k (insertFieldNew tgt k v) = some v := by
  induction tgt with
  | nil => simp [insertFieldNew, lookupField]
  | cons e rest ih =>
      obtain ⟨k0, v0⟩ := e
      simp only [List.map_cons, List.mem_cons] at hmem
      push_neg at hmem
      rw [insertFieldNew]
      split
      · rw [lookupField, if_pos rfl]
      · rw [lookupField, if_neg (fun he => hmem.1 he.symm)]
        exact ih hmem.2

/-- Reading back the key just assigned yields the assigned value. -/
theorem lookupField_setField_self (tgt : List (String × JSValue)) (k : String) (v : JSValue) :
    lookupField k (setField tgt k v) = some v := by
  rw [setField]
  by_cases hmem : k ∈ tgt.map Prod.fst
  · rw [if_pos hmem]
    exact lookupField_updateField_self tgt k v
  · rw [if_neg hmem]
    exact lookupField_insertFieldNew_self hmem v

/-- An in-place update leaves every other key's value unchanged. -/
theorem lookupField_updateField_ne (tgt : List (String × JSValue)) {k k' : String}
    (h : k' ≠ k) (v : JSValue) :
    lookupField k (updateField tgt k' v) = lookupField k tgt := by
  induction tgt with
  | nil => simp [updateField, lookupField, h]
  | cons e rest ih =>
      obtain ⟨k0, v0⟩ := e
      by_cases hk : k0 = k'
      · rw [updateField, if_pos hk, lookupField, lookupField, if_neg h, if_neg (hk ▸ h ∘ Eq.symm ∘ Eq.symm)]
      · rw [updateField, if_neg hk, lookupField, lookupField]
        by_cases hk2 : k0 = k
        · rw [if_pos hk2, if_pos hk2]
        · rw [if_neg hk2, if_neg hk2]
          exact ih

/-- Creating one key leaves every other key's value unchanged. -/
theorem lookupField_insertFieldNew_ne (tgt : List (String × JSValue)) {k k' : String}
    (h : k' ≠ k) (v : JSValue) :
    lookupField k (insertFieldNew tgt k' v) = lookupField k tgt := by
  induction tgt with
  | nil => simp [insertFieldNew, lookupField, h]
  | cons e rest ih =>
      obtain ⟨k0, v0⟩ := e
      rw [insertFieldNew]
      split
      · rw [lookupField, if_neg h]
      · rw [lookupField, lookupField]
        by_cases hk2 : k0 = k
        · rw [if_pos hk2, if_pos hk2]
        · rw [if_neg hk2, if_neg hk2]
          exact ih

/-- Assigning one key leaves every other key's value unchanged. -/
theorem lookupField_setField_ne (tgt : List (String × JSValue)) {k k' : String}
    (h : k' ≠ k) (v : JSValue) :
    lookupField k (setField tgt k' v) = lookupField k tgt := by
  rw [setField]
  by_cases hmem : k' ∈ tgt.map Prod.fst
  · rw [if_pos hmem]
    exact lookupField_updateField_ne tgt h v
  · rw [if_neg hmem]
    exact lookupField_insertFieldNew_ne tgt h v

/-- A key is absent exactly when lookup yields nothing. -/
theorem lookupField_eq_none (k : String) (tgt : List (String × JSValue)) :
    lookupField k tgt = none ↔ k ∉ tgt.map Prod.fst := by
  induction tgt with
  | nil => simp [lookupField]
  | cons e rest ih =>
      obtain ⟨k0, v0⟩ := e
      by_cases hk : k0 = k
      · subst hk
        simp [lookupField]
      · rw [lookupField, if_neg hk]
        simp only [List.map_cons, List.mem_cons]
        rw [ih]
        constructor
        · rintro hmem (rfl | hmem2)
          · exact hk rfl
          · exact hmem hmem2
        · intro hmem hmem2
          exact hmem (Or.inr hmem2)

/-- A successful lookup means the key is present. -/
theorem lookupField_mem {k : String} {tgt : List (String × JSValue)} {v : JSValue}
    (h : lookupField k tgt = some v) : k ∈ tgt.map Prod.fst := by
  by_cases hm : k ∈ tgt.map Prod.fst
  · exact hm
  · rw [(lookupField_eq_none k tgt).mpr hm] at h
    exact absurd h (by simp)

/-- An in-place update keeps the key list unchanged. -/
theorem updateField_map_fst_mem {tgt : List (String × JSValue)} {k : String}
    (h : k ∈ tgt.map Prod.fst) (v : JSValue) :
    (updateField tgt k v).map Prod.fst = tgt.map Prod.fst := by
  induction tgt with
  | nil => simp at h
  | cons e rest ih =>
      obtain ⟨k0, v0⟩ := e
      by_cases hk : k0 = k
      · rw [updateField, if_pos hk]
        simp [hk]
      · rw [updateField, if_neg hk]
        simp only [List.map_cons, List.mem_cons] at h ⊢
        rcases h with h | h
        · exact absurd h.symm hk
        · rw [ih h]

/-- Assigning an existing key keeps the key list unchanged. -/
theorem setField_map_fst_mem {tgt : List (String × JSValue)} {k : String}
    (h : k ∈ tgt.map Prod.fst) (v : JSValue) :
    (setField tgt k v).map Prod.fst = tgt.map Prod.fst := by
  rw [setField, if_pos h]
  exact updateField_map_fst_mem h v

/-- Creating a key that is not array-index-like appends it at the end of
the key list: enumeration hoisting only moves array-index keys. -/
theorem insertFieldNew_map_fst_not_index {k : String}
    (hidx : isArrayIndex k = false) (v : JSValue) :
    ∀ tgt : List (String × JSValue),
      (insertFieldNew tgt k v).map Prod.fst = tgt.map Prod.fst ++ [k] := by
  intro tgt
  induction tgt with
  | nil => simp [insertFieldNew]
  | cons e rest ih =>
      obtain ⟨k0, v0⟩ := e
      rw [insertFieldNew, if_neg (by simp [hidx])]
      simp only [List.map_cons, List.cons_append, List.cons.injEq, true_and]
      exact ih

/-- Assigning a new key that is not array-index-like appends it at the end
of the key list. -/
theorem setField_map_fst_not_mem {tgt : List (String × JSValue)} {k : String}
    (h : k ∉ tgt.map Prod.fst) (hidx : isArrayIndex k = false) (v : JSValue) :
    (setField tgt k v).map Prod.fst = tgt.map Prod.fst ++ [k] := by
  rw [setField, if_neg h]
  exact insertFieldNew_map_fst_not_index hidx v tgt

/-- In a Shape Tree, every stored value is itself a Shape Node. -/
theorem isShape_lookup {tgt : List (String × JSValue)} {k : String} {v : JSValue}
    (h : isShape (.obj tgt) = true) (hl : lookupField k tgt = some v) :
    isShape v = true := by
  induction tgt with
  | nil => simp [lookupField] at hl
  | cons e rest ih =>
      obtain ⟨k0, v0⟩ := e
      simp only [isShape, Bool.and_eq_true] at h
      rw [lookupField] at hl
      by_cases hk : k0 = k
      · rw [if_pos hk] at hl
        cases hl
        exact h.1
      · rw [if_neg hk] at hl
        exact ih h.2 hl

/-- Updating a key in place with a Shape Node keeps the tree a Shape Tree. -/
theorem isShape_updateField {tgt : List (String × JSValue)} {k : String} {v : JSValue}
    (h : isShape (.obj tgt) = true) (hv : isShape v = true) :
    isShape (.obj (updateField tgt k v)) = true := by
  induction tgt with
  | nil => simp [updateField, isShape, hv]
  | cons e rest ih =>
      obtain ⟨k0, v0⟩ := e
      simp only [isShape, Bool.and_eq_true] at h
      by_cases hk : k0 = k
      · rw [updateField, if_pos hk]
        simp [isShape, hv, h.2]
      · rw [updateField, if_neg hk]
        simp only [isShape, Bool.and_eq_true]
        exact ⟨h.1, ih h.2⟩

/-- Creating a key with a Shape Node value keeps the tree a Shape Tree,
wherever enumeration order places the new key. -/
theorem isShape_insertFieldNew {tgt : List (String × JSValue)} {k : String} {v : JSValue}
    (h : isShape (.obj tgt) = true) (hv : isShape v = true) :
    isShape (.obj (insertFieldNew tgt k v)) = true := by
  induction tgt with
  | nil => simp [insertFieldNew, isShape, hv]
  | cons e rest ih =>
      obtain ⟨k0, v0⟩ := e
      simp only [isShape, Bool.and_eq_true] at h
      rw [insertFieldNew]
      split
      · simp only [isShape, Bool.and_eq_true]
        exact ⟨hv, h.1, h.2⟩
      · simp only [isShape, Bool.and_eq_true]
        exact ⟨h.1, ih h.2⟩

/-- Assigning a Shape Node into a Shape Tree keeps it a Shape Tree. -/
theorem isShape_setField {tgt : List (String × JSValue)} {k : String} {v : JSValue}
    (h : isShape (.obj tgt) = true) (hv : isShape v = true) :
    isShape (.obj (setField tgt k v)) = true := by
  rw [setField]
  split
  · exact isShape_updateField h hv
  · exact isShape_insertFieldNew h hv

/-- Keys that the incoming source does not mention keep their value across
a merge: the merge touches no other key. -/
theorem deepMerge_lookup_frame :
    ∀ {tgt src r : List (String × JSValue)}, deepMerge tgt src = .ok r →
      ∀ {k : String}, k ∉ src.map Prod.fst → lookupField k r = lookupField k tgt := by
  intro tgt src
  induction tgt, src using deepMerge.induct with
  | case1 target =>
      intro r h k hk
      simp only [deepMerge, Except.ok.injEq] at h
      rw [h]
  | case2 target k0 rest fs tfs hlook merged hmerge ihA ihB =>
      intro r h k hk
      simp only [deepMerge, hlook, hmerge] at h
      simp only [List.map_cons, List.mem_cons] at hk
      push_neg at hk
      rw [ihB h hk.2]
      exact lookupField_setField_ne target (fun he => hk.1 he.symm) _
  | case3 target k0 rest fs tfs hlook e hmerge ihA =>
      intro r h k hk
      simp only [deepMerge, hlook, hmerge] at h
      exact Except.noConfusion h
  | case4 target k0 rest fs hlook hemp ihA =>
      intro r h k hk
      simp only [deepMerge, hlook, hemp, if_true] at h
      simp only [List.map_cons, List.mem_cons] at hk
      push_neg at hk
      exact ihA h hk.2
  | case5 target k0 rest fs hlook hemp =>
      intro r h k hk
      simp only [deepMerge, hlook, hemp, if_false] at h
      exact Except.noConfusion h
  | case6 target k0 rest fs merged hmerge hnotobj hnotnull ihA ihB =>
      intro r h k hk
      simp only [deepMerge, hmerge] at h
      simp only [List.map_cons, List.mem_cons] at hk
      push_neg at hk
      rw [ihB h hk.2]
      exact lookupField_setField_ne target (fun he => hk.1 he.symm) _
  | case7 target k0 rest fs e hmerge hnotobj hnotnull ihA =>
      intro r h k hk
      simp only [deepMerge, hmerge] at h
      exact Except.noConfusion h
  | case8 target k0 v rest hnotobj ihA =>
      intro r h k hk
      simp only [List.map_cons, List.mem_cons] at hk
      push_neg at hk
      have hmv : deepMerge target ((k0, v) :: rest) = deepMerge (setField target k0 v) rest := by
        simp only [deepMerge]
      rw [hmv] at h
      rw [ihA h hk.2]
      exact lookupField_setField_ne target (fun he => hk.1 he.symm) _

/-- On Shape Trees the merge always succeeds and yields a Shape Tree:
no `TypeError` can arise because a Shape Tree never stores `null`. -/
theorem deepMerge_shape_ok :
    ∀ {tgt src : List (String × JSValue)}, isShape (.obj tgt) = true →
      isShape (.obj src) = true →
      ∃ r, deepMerge tgt src = .ok r ∧ isShape (.obj r) = true := by
  intro tgt src
  induction tgt, src using deepMerge.induct with
  | case1 target =>
      intro ht hs
      exact ⟨target, by simp [deepMerge], ht⟩
  | case2 target k0 rest fs tfs hlook merged hmerge ihA ihB =>
      intro ht hs
      simp only [isShape, Bool.and_eq_true] at hs
      have htfs : isShape (.obj tfs) = true := isShape_lookup ht hlook
      obtain ⟨m, hm, hms⟩ := ihA htfs hs.1
      rw [hmerge, Except.ok.injEq] at hm
      subst hm
      obtain ⟨r, hr, hrs⟩ := ihB (isShape_setField ht hms) hs.2
      refine ⟨r, ?_, hrs⟩
      simp only [deepMerge, hlook, hmerge]
      exact hr
  | case3 target k0 rest fs tfs hlook e hmerge ihA =>
      intro ht hs
      simp only [isShape, Bool.and_eq_true] at hs
      have htfs : isShape (.obj tfs) = true := isShape_lookup ht hlook
      obtain ⟨m, hm, hms⟩ := ihA htfs hs.1
      rw [hmerge] at hm
      exact Except.noConfusion hm
  | case4 target k0 rest fs hlook hemp ihA =>
      intro ht hs
      have := isShape_lookup ht hlook
      simp [isShape] at this
  | case5 target k0 rest fs hlook hemp =>
      intro ht hs
      have := isShape_lookup ht hlook
      simp [isShape] at this
  | case6 target k0 rest fs merged hmerge hnotobj hnotnull ihA ihB =>
      intro ht hs
      simp only [isShape, Bool.and_eq_true] at hs
      obtain ⟨m, hm, hms⟩ := ihA (by simp [isShape]) hs.1
      rw [hmerge, Except.ok.injEq] at hm
      subst hm
      obtain ⟨r, hr, hrs⟩ := ihB (isShape_setField ht hms) hs.2
      refine ⟨r, ?_, hrs⟩
      simp only [deepMerge, hmerge]
      exact hr
  | case7 target k0 rest fs e hmerge hnotobj hnotnull ihA =>
      intro ht hs
      simp only [isShape, Bool.and_eq_true] at hs
      obtain ⟨m, hm, hms⟩ := ihA (by simp [isShape]) hs.1
      rw [hmerge] at hm
      exact Except.noConfusion hm
  | case8 target k0 v rest hnotobj ihA =>
      intro ht hs
      simp only [isShape, Bool.and_eq_true] at hs
      obtain ⟨r, hr, hrs⟩ := ihA (isShape_setField ht hs.1) hs.2
      refine ⟨r, ?_, hrs⟩
      have hmv : deepMerge target ((k0, v) :: rest) = deepMerge (setField target k0 v) rest := by
        simp only [deepMerge]
      rw [hmv]
      exact hr

/-- Key order after a merge: the accumulator's keys keep their positions,
and the source's new keys are appended in source order.  A key's first
insertion fixes its position; later writes overwrite the value in place. -/
theorem deepMerge_map_fst :
    ∀ {tgt src r : List (String × JSValue)}, (src.map Prod.fst).Nodup →
      (∀ k ∈ src.map Prod.fst, isArrayIndex k = false) →
      deepMerge tgt src = .ok r →
      r.map Prod.fst = tgt.map Prod.fst
        ++ (src.map Prod.fst).filter (fun s => decide (s ∉ tgt.map Prod.fst)) := by
  intro tgt src
  induction tgt, src using deepMerge.induct with
  | case1 target =>
      intro r hnd hni h
      simp only [deepMerge, Except.ok.injEq] at h
      simp [← h]
  | case2 target k0 rest fs tfs hlook merged hmerge ihA ihB =>
      intro r hnd hni h
      simp only [deepMerge, hlook, hmerge] at h
      have hk0 : k0 ∈ target.map Prod.fst := lookupField_mem hlook
      have hniR : ∀ k ∈ rest.map Prod.fst, isArrayIndex k = false :=
        fun k hk => hni k (by simp [hk])
      simp only [List.map_cons, List.nodup_cons] at hnd
      rw [ihB hnd.2 hniR h, setField_map_fst_mem hk0]
      congr 1
      simp [List.filter_cons, hk0]
  | case3 target k0 rest fs tfs hlook e hmerge ihA =>
      intro r hnd hni h
      simp only [deepMerge, hlook, hmerge] at h
      exact Except.noConfusion h
  | case4 target k0 rest fs hlook hemp ihA =>
      intro r hnd hni h
      simp only [deepMerge, hlook, hemp, if_true] at h
      have hk0 : k0 ∈ target.map Prod.fst := lookupField_mem hlook
      have hniR : ∀ k ∈ rest.map Prod.fst, isArrayIndex k = false :=
        fun k hk => hni k (by simp [hk])
      simp only [List.map_cons, List.nodup_cons] at hnd
      rw [ihA hnd.2 hniR h]
      congr 1
      simp [List.filter_cons, hk0]
  | case5 target k0 rest fs hlook hemp =>
      intro r hnd hni h
      simp only [deepMerge, hlook, hemp, if_false] at h
      exact Except.noConfusion h
  | case6 target k0 rest fs merged hmerge hnotobj hnotnull ihA ihB =>
      intro r hnd hni h
      simp only [deepMerge, hmerge] at h
      have hni0 : isArrayIndex k0 = false := hni k0 (by simp)
      have hniR : ∀ k ∈ rest.map Prod.fst, isArrayIndex k = false :=
        fun k hk => hni k (by simp [hk])
      simp only [List.map_cons, List.nodup_cons] at hnd
      by_cases hk0 : k0 ∈ target.map Prod.fst
      · rw [ihB hnd.2 hniR h, setField_map_fst_mem hk0]
        congr 1
        simp [List.filter_cons, hk0]
      · have hfeq : List.filter (fun s => decide (s ∉ target.map Prod.fst ++ [k0]))
              (rest.map Prod.fst)
            = List.filter (fun s => decide (s ∉ target.map Prod.fst)) (rest.map Prod.fst) := by
          apply List.filter_congr
          intro x hx
          have hxk : x ≠ k0 := fun he => hnd.1 (he ▸ hx)
          simp [List.mem_append, hxk]
        rw [ihB hnd.2 hniR h, setField_map_fst_not_mem hk0 hni0, hfeq]
        simp only [List.map_cons, List.filter_cons]
        rw [if_pos (by simp [hk0])]
        rw [List.append_assoc, List.singleton_append]
  | case7 target k0 rest fs e hmerge hnotobj hnotnull ihA =>
      intro r hnd hni h
      simp only [deepMerge, hmerge] at h
      exact Except.noConfusion h
  | case8 target k0 v rest hnotobj ihA =>
      intro r hnd hni h
      have hmv : deepMerge target ((k0, v) :: rest) = deepMerge (setField target k0 v) rest := by
        simp only [deepMerge]
      rw [hmv] at h
      have hni0 : isArrayIndex k0 = false := hni k0 (by simp)
      have hniR : ∀ k ∈ rest.map Prod.fst, isArrayIndex k = false :=
        fun k hk => hni k (by simp [hk])
      simp only [List.map_cons, List.nodup_cons] at hnd
      by_cases hk0 : k0 ∈ target.map Prod.fst
      · rw [ihA hnd.2 hniR h, setField_map_fst_mem hk0]
        congr 1
        simp [List.filter_cons, hk0]
      · have hfeq : List.filter (fun s => decide (s ∉ target.map Prod.fst ++ [k0]))
              (rest.map Prod.fst)
            = List.filter (fun s => decide (s ∉ target.map Prod.fst)) (rest.map Prod.fst) := by
          apply List.filter_congr
          intro x hx
          have hxk : x ≠ k0 := fun he => hnd.1 (he ▸ hx)
          simp [List.mem_append, hxk]
        rw [ihA hnd.2 hniR h, setField_map_fst_not_mem hk0 hni0, hfeq]
        simp only [List.map_cons, List.filter_cons]
        rw [if_pos (by simp [hk0])]
        rw [List.append_assoc, List.singleton_append]

/-- Merging an empty source returns the accumulator unchanged. -/
theorem deepMerge_src_nil (target : List (String × JSValue)) :
    deepMerge target [] = .ok target := by
  simp only [deepMerge]

/-- A leaf (non-object) source entry is one in-place assignment. -/
theorem deepMerge_src_cons_leaf (target : List (String × JSValue)) (k : String)
    (v : JSValue) (rest : List (String × JSValue)) (hv : ∀ fs, v ≠ JSValue.obj fs) :
    deepMerge target ((k, v) :: rest) = deepMerge (setField target k v) rest := by
  simp only [deepMerge]

/-- One successful step of the merge fold. -/
theorem mergeLocaleDataLoop_cons_ok (acc m src : List (String × JSValue))
    (rest : List (List (String × JSValue)))
    (h : deepMerge acc src = .ok m) :
    mergeLocaleDataLoop acc (src :: rest) = mergeLocaleDataLoop m rest := by
  simp only [mergeLocaleDataLoop]
  rw [h]

/-- The exhausted merge fold returns its accumulator. -/
theorem mergeLocaleDataLoop_nil (acc : List (String × JSValue)) :
    mergeLocaleDataLoop acc [] = .ok acc := rfl

/-- The merge entry point is the left fold of the pairwise merge, starting
from the empty accumulator. -/
theorem mergeLocaleDataLoop_eq_foldlM (l : List (List (String × JSValue)))
    (acc : List (String × JSValue)) :
    mergeLocaleDataLoop acc l = l.foldlM deepMerge acc := by
  induction l generalizing acc with
  | nil => simp [mergeLocaleDataLoop, pure, Except.pure]
  | cons src rest ih =>
      rw [mergeLocaleDataLoop, List.foldlM_cons]
      rcases hd : deepMerge acc src with e | acc'
      · rfl
      · exact ih acc'

/-- Folding the merge over Shape Trees succeeds and yields a Shape Tree. -/
theorem mergeLocaleDataLoop_shape_ok :
    ∀ (l : List (List (String × JSValue))) (acc : List (String × JSValue)),
      isShape (.obj acc) = true → (∀ src ∈ l, isShape (.obj src) = true) →
      ∃ r, mergeLocaleDataLoop acc l = .ok r ∧ isShape (.obj r) = true := by
  intro l
  induction l with
  | nil =>
      intro acc hacc _
      exact ⟨acc, rfl, hacc⟩
  | cons src rest ih =>
      intro acc hacc hsrc
      obtain ⟨m, hm, hms⟩ := deepMerge_shape_ok hacc (hsrc src (List.mem_cons_self _ _))
      obtain ⟨r, hr, hrs⟩ := ih m hms (fun s hs => hsrc s (List.mem_cons_of_mem _ hs))
      refine ⟨r, ?_, hrs⟩
      rw [mergeLocaleDataLoop, hm]
      exact hr

/-- The lines one entry contributes to the emitted block at a given depth:
a template string yields one leaf line, a nested object yields a header
line, the whole recursively rendered sub-block, and a footer line, and any
other value yields nothing. -/
def renderEntry (depth : Nat) (kv : String × JSValue) : List String :=
  match kv.2 with
  | .str s => [indentStr (depth + 3) ++ kv.1 ++ ": " ++ generateFunctionSignature s ++ ";"]
  | .obj fs => [indentStr (depth + 3) ++ kv.1 ++ ": \x7b",
      processLocaleData fs (depth + 1),
      indentStr (depth + 3) ++ "\x7d;"]
  | _ => []

/-- The emitter's loop is the concatenation of per-entry contributions. -/
theorem processEntries_eq_flatMap (data : List (String × JSValue)) (depth : Nat) :
    processEntries data depth = data.flatMap (renderEntry depth) := by
  induction data with
  | nil => simp [processEntries]
  | cons kv rest ih =>
      obtain ⟨k, v⟩ := kv
      rcases v with s | fs | n | b | -
      all_goals simp [processEntries, processLocaleData, renderEntry, ih]

/-- A value that is neither a string nor an object contributes no line: the
key is skipped and the rest renders unchanged. -/
theorem processEntries_skip (k : String) (v : JSValue)
    (rest : List (String × JSValue)) (depth : Nat)
    (hs : ∀ s, v ≠ .str s) (ho : ∀ fs, v ≠ .obj fs) :
    processEntries ((k, v) :: rest) depth = processEntries rest depth := by
  rcases v with s | fs | n | b | -
  · exact absurd rfl (hs s)
  · exact absurd rfl (ho fs)
  · simp [processEntries]
  · simp [processEntries]
  · simp [processEntries]

/-- Any successfully generated block has exactly the fixed boilerplate
around the rendered body: the brace-opened `declare global` header carrying
the client suffix, the namespace and interface lines, the body, the closing
lines, and the `export \x7b \x7d;` marker. -/
theorem generateTessenDeclaration_ok_shape {tessen : Tessen} {clientIndex : Option Nat}
    {s : String} (h : generateTessenDeclaration tessen clientIndex = .ok s) :
    ∃ localeData, extractPlainLocaleDataFromTessen tessen = .ok localeData ∧
      s = "declare global \x7b" ++ clientSuffix clientIndex
        ++ "\n  namespace Tessen \x7b\n    interface Localization \x7b\n"
        ++ processLocaleData localeData
        ++ "\n    \x7d\n  \x7d\n\x7d\n    \nexport \x7b \x7d;" := by
  rcases he : extractPlainLocaleDataFromTessen tessen with e | d
  · rw [generateTessenDeclaration, he] at h
    exact Except.noConfusion h
  · rw [generateTessenDeclaration, he] at h
    rw [Except.ok.injEq] at h
    exact ⟨d, rfl, h.symm⟩

/-- The generation loop succeeds exactly when every per-instance generation
succeeds; the resulting blocks correspond index by index, with the client
index passed through unchanged. -/
theorem generateDeclarationsLoop_spec (total : Nat) :
    ∀ (l : List (Nat × Tessen)) (ds : List String),
      generateDeclarationsLoop total l = .ok ds →
      ds.length = l.length ∧
      ∀ i (hi : i < l.length) (hi' : i < ds.length),
        generateTessenDeclaration (l.get ⟨i, hi⟩).2
          (if total > 1 then some (l.get ⟨i, hi⟩).1 else none) = .ok (ds.get ⟨i, hi'⟩) := by
  intro l
  induction l with
  | nil =>
      intro ds h
      rw [generateDeclarationsLoop, Except.ok.injEq] at h
      subst h
      exact ⟨rfl, fun i hi => absurd hi (by simp)⟩
  | cons it rest ih =>
      intro ds h
      obtain ⟨i0, t0⟩ := it
      rw [generateDeclarationsLoop] at h
      rcases hd : generateTessenDeclaration t0 (if total > 1 then some i0 else none) with e | d
      · rw [hd] at h
        exact Except.noConfusion h
      · rw [hd] at h
        rcases hrest : generateDeclarationsLoop total rest with e | ds'
        · rw [hrest] at h
          exact Except.noConfusion h
        · rw [hrest, Except.ok.injEq] at h
          subst h
          obtain ⟨hlen, hidx⟩ := ih ds' hrest
          refine ⟨by simp [hlen], ?_⟩
          intro i hi hi'
          cases i with
          | zero => exact hd
          | succ j =>
              simp only [List.length_cons, Nat.succ_lt_succ_iff] at hi hi'
              exact hidx j hi (by omega)

/-- C2: the pairwise merge assigns each incoming Leaf directly, overwriting
whatever was there with no error or check; an incoming Branch forces a
Branch at the key (replacing any non-Branch value, including absence, with
an empty Branch) and recurses; keys absent from the incoming node are left
untouched; and merging a list of nodes is the left fold of the pairwise
merge from an empty Branch, so the later source wins on conflict. -/
theorem c2_deepMerge_last_writer_wins :
    (∀ (tgt : List (String × JSValue)) (k : String) (v : JSValue),
      (∀ fs, v ≠ JSValue.obj fs) →
      deepMerge tgt [(k, v)] = .ok (setField tgt k v))
    ∧ (∀ (tgt : List (String × JSValue)) (k : String)
         (fs tfs m : List (String × JSValue)),
        lookupField k tgt = some (JSValue.obj tfs) → deepMerge tfs fs = .ok m →
        deepMerge tgt [(k, JSValue.obj fs)] = .ok (setField tgt k (JSValue.obj m)))
    ∧ (∀ (tgt : List (String × JSValue)) (k : String)
         (fs m : List (String × JSValue)),
        (∀ tfs, lookupField k tgt = some (JSValue.obj tfs) → False) →
        (lookupField k tgt = some JSValue.null → False) →
        deepMerge [] fs = .ok m →
        deepMerge tgt [(k, JSValue.obj fs)] = .ok (setField tgt k (JSValue.obj m)))
    ∧ (∀ (tgt src r : List (String × JSValue)) (k : String),
        deepMerge tgt src = .ok r → k ∉ src.map Prod.fst →
        lookupField k r = lookupField k tgt)
    ∧ (∀ sources : List (List (String × JSValue)),
        mergeLocaleData sources = sources.foldlM deepMerge [])
    ∧ mergeLocaleData [[("k", .obj [("x", .str "a")])], [("k", .str "b")]] =
        .ok [("k", .str "b")]
    ∧ mergeLocaleData [[("k", .str "b")], [("k", .obj [("x", .str "a")])]] =
        .ok [("k", .obj [("x", .str "a")])] := by
  refine ⟨?_, ?_, ?_, ?_, ?_, ?_, ?_⟩
  · intro tgt k v hv
    have h1 : deepMerge tgt [(k, v)] = deepMerge (setField tgt k v) [] := by
      simp only [deepMerge]
    rw [h1]
    simp [deepMerge]
  · intro tgt k fs tfs m hlook hm
    simp only [deepMerge, hlook, hm]
  · intro tgt k fs m hno hnn hm
    simp only [deepMerge, hm]
  · intro tgt src r k h hk
    exact deepMerge_lookup_frame h hk
  · intro sources
    exact mergeLocaleDataLoop_eq_foldlM sources []
  · simp [mergeLocaleData, mergeLocaleDataLoop, deepMerge, lookupField, setField, updateField, insertFieldNew, isArrayIndex, decimalValue]
  · simp [mergeLocaleData, mergeLocaleDataLoop, deepMerge, lookupField, setField, updateField, insertFieldNew, isArrayIndex, decimalValue]

/-- Witness for C2: a later Leaf overwrites an entire Branch subtree. -/
theorem c2_deepMerge_last_writer_wins_witness :
    deepMerge [("k", JSValue.obj [("x", JSValue.str "a")])] [("k", JSValue.str "b")] =
      .ok (setField [("k", JSValue.obj [("x", JSValue.str "a")])] "k" (JSValue.str "b")) :=
  c2_deepMerge_last_writer_wins.1 [("k", JSValue.obj [("x", JSValue.str "a")])] "k"
    (JSValue.str "b") (fun fs h => JSValue.noConfusion h)

/-- C5: the signature renderer yields the thunk form on an empty parameter
list and otherwise a comma-joined `name: type` list in the order supplied,
with a string return type. -/
theorem c5_generateFunctionSignature_forms :
    (∀ value : String, extractParameters value = [] →
      generateFunctionSignature value = "() => string")
    ∧ (∀ (value : String) (ps : List ExtractedParameter),
        extractParameters value = ps → ps ≠ [] →
        generateFunctionSignature value =
          "(" ++ String.intercalate ", " (ps.map fun p => p.name ++ ": " ++ p.type)
              ++ ") => string")
    ∧ generateFunctionSignature "\x7b0:user\x7d is now a \x7b1:role\x7d" =
        "(user: string, role: string) => string" := by
  refine ⟨?_, ?_, ?_⟩
  · intro value h
    rw [generateFunctionSignature, h]
    rfl
  · intro value ps h hne
    rw [generateFunctionSignature, h]
    rw [if_neg (by simpa [List.isEmpty_iff] using hne)]
  · simp +decide [generateFunctionSignature, extractParameters, extractLoop_cons,
      extractLoop, matchPlaceholder, List.takeWhile_cons, List.dropWhile_cons,
      String.intercalate]

/-- Witness for C5 on a template with no placeholders. -/
theorem c5_generateFunctionSignature_forms_witness :
    generateFunctionSignature "hello" = "() => string" :=
  c5_generateFunctionSignature_forms.1 "hello" (by
    simp [extractParameters, extractLoop_cons, extractLoop])

/-- C6 (amended): for sources none of whose keys is array-index-like,
merged key order is first-seen insertion order across all sources — the
accumulator's keys keep their positions and a source's new keys are
appended in source order, while a later source's write to an existing key
updates the value in place; merging `[\x7ba,b\x7d, \x7bc,b\x7d]` yields root order
`[a, b, c]` with `b`'s value from the second source.  Array-index-like
keys are instead hoisted by JavaScript own-property enumeration ahead of
every other key, in ascending numeric order, breaking first-seen order
(see the counterexample). -/
theorem c6_merge_first_seen_key_order :
    (∀ (tgt src r : List (String × JSValue)), (src.map Prod.fst).Nodup →
      (∀ k ∈ src.map Prod.fst, isArrayIndex k = false) →
      deepMerge tgt src = .ok r →
      r.map Prod.fst = tgt.map Prod.fst
        ++ (src.map Prod.fst).filter (fun s => decide (s ∉ tgt.map Prod.fst)))
    ∧ mergeLocaleData [[("a", .str "va"), ("b", .str "vb1")],
        [("c", .str "vc"), ("b", .str "vb2")]] =
        .ok [("a", .str "va"), ("b", .str "vb2"), ("c", .str "vc")] := by
  refine ⟨?_, ?_⟩
  · intro tgt src r hnd hni h
    exact deepMerge_map_fst hnd hni h
  · have hA : deepMerge [] [("a", JSValue.str "va"), ("b", JSValue.str "vb1")] =
        .ok [("a", JSValue.str "va"), ("b", JSValue.str "vb1")] := by
      rw [deepMerge_src_cons_leaf _ _ _ _ (fun fs h => JSValue.noConfusion h),
        deepMerge_src_cons_leaf _ _ _ _ (fun fs h => JSValue.noConfusion h),
        deepMerge_src_nil]
      rfl
    have hB : deepMerge [("a", JSValue.str "va"), ("b", JSValue.str "vb1")]
        [("c", JSValue.str "vc"), ("b", JSValue.str "vb2")] =
        .ok [("a", JSValue.str "va"), ("b", JSValue.str "vb2"), ("c", JSValue.str "vc")] := by
      rw [deepMerge_src_cons_leaf _ _ _ _ (fun fs h => JSValue.noConfusion h),
        deepMerge_src_cons_leaf _ _ _ _ (fun fs h => JSValue.noConfusion h),
        deepMerge_src_nil]
      rfl
    rw [mergeLocaleData, mergeLocaleDataLoop_cons_ok _ _ _ _ hA,
      mergeLocaleDataLoop_cons_ok _ _ _ _ hB, mergeLocaleDataLoop_nil]

/-- Witness for C6 at a concrete merge with non-index keys. -/
theorem c6_merge_first_seen_key_order_witness :
    ([("a", JSValue.str "x"), ("b", JSValue.str "y")].map Prod.fst) =
      ([("a", JSValue.str "x")].map Prod.fst)
        ++ (([("b", JSValue.str "y")].map Prod.fst).filter
              (fun s => decide (s ∉ [("a", JSValue.str "x")].map Prod.fst))) :=
  c6_merge_first_seen_key_order.1 [("a", JSValue.str "x")] [("b", JSValue.str "y")]
    [("a", JSValue.str "x"), ("b", JSValue.str "y")] (by simp)
    (by decide)
    (by rw [deepMerge_src_cons_leaf _ _ _ _ (fun fs h => JSValue.noConfusion h),
          deepMerge_src_nil]
        rfl)

/-- Counterexample to C6 as stated: merging the array-index-like key `"0"`
into an accumulator holding `"a"` puts `"0"` first — JavaScript own-property
enumeration hoists array-index keys — not last as first-seen order demands. -/
theorem c6_merge_first_seen_key_order_counterexample :
    ¬ (∀ (tgt src r : List (String × JSValue)), (src.map Prod.fst).Nodup →
        deepMerge tgt src = .ok r →
        r.map Prod.fst = tgt.map Prod.fst
          ++ (src.map Prod.fst).filter (fun s => decide (s ∉ tgt.map Prod.fst))) := by
  intro hclaim
  have hmerge : deepMerge [("a", JSValue.str "x")] [("0", JSValue.str "y")] =
      .ok [("0", JSValue.str "y"), ("a", JSValue.str "x")] := by
    rw [deepMerge_src_cons_leaf _ _ _ _ (fun fs h => JSValue.noConfusion h),
      deepMerge_src_nil]
    rfl
  have hord := hclaim [("a", JSValue.str "x")] [("0", JSValue.str "y")]
    [("0", JSValue.str "y"), ("a", JSValue.str "x")] (by simp) hmerge
  exact absurd hord (by decide)

/-- C7: the emitter renders, at recursion depth D with indent
`'  '.repeat(D + 3)`, one `key: signature;` line per Leaf (signature from
the renderer applied to the parser's result) and, per Branch, a `key: \x7b`
header, the recursively rendered children at depth D + 1, and a `\x7d;`
footer; the block is those contributions joined with newlines. -/
theorem c7_processLocaleData_lines :
    (∀ (data : List (String × JSValue)) (depth : Nat),
      processLocaleData data depth =
        String.intercalate "\n" (data.flatMap (renderEntry depth)))
    ∧ (∀ (depth : Nat) (k s : String),
        renderEntry depth (k, .str s) =
          [indentStr (depth + 3) ++ k ++ ": " ++ generateFunctionSignature s ++ ";"])
    ∧ (∀ (depth : Nat) (k : String) (fs : List (String × JSValue)),
        renderEntry depth (k, .obj fs) =
          [indentStr (depth + 3) ++ k ++ ": \x7b",
           processLocaleData fs (depth + 1),
           indentStr (depth + 3) ++ "\x7d;"])
    ∧ (∀ n : Nat, indentStr n = String.mk (List.replicate (2 * n) ' '))
    ∧ processLocaleData [("hello", .str "hi"),
        ("nested", .obj [("welcome", .str "\x7b0:username\x7d")])] =
        "      hello: () => string;\n      nested: \x7b\n        welcome: (username: string) => string;\n      \x7d;" := by
  refine ⟨?_, fun _ _ _ => rfl, fun _ _ _ => rfl, fun _ => rfl, ?_⟩
  · intro data depth
    rw [processLocaleData, processEntries_eq_flatMap]
  · simp +decide [processLocaleData, processEntries, generateFunctionSignature,
      extractParameters, extractLoop_cons, extractLoop, matchPlaceholder, indentStr,
      List.takeWhile_cons, List.dropWhile_cons, String.intercalate, List.replicate]

/-- C8: every pipeline stage is a pure function of its inputs, so two runs
on equal inputs produce equal outputs (byte-identical text). -/
theorem c8_pipeline_deterministic :
    (∀ cfg cfg' : TypeGenerationConfig, cfg = cfg' →
      generateLocalizationTypes cfg = generateLocalizationTypes cfg')
    ∧ (∀ v v' : String, v = v' → extractParameters v = extractParameters v')
    ∧ (∀ v v' : String, v = v' → generateFunctionSignature v = generateFunctionSignature v')
    ∧ (∀ l l' : List (List (String × JSValue)), l = l' →
        mergeLocaleData l = mergeLocaleData l')
    ∧ (∀ (d d' : List (String × JSValue)) (depth : Nat), d = d' →
        processLocaleData d depth = processLocaleData d' depth) := by
  refine ⟨?_, ?_, ?_, ?_, ?_⟩
  · intro cfg cfg' h; rw [h]
  · intro v v' h; rw [h]
  · intro v v' h; rw [h]
  · intro l l' h; rw [h]
  · intro d d' depth h; rw [h]

/-- Witness for C8 at a concrete configuration. -/
theorem c8_pipeline_deterministic_witness :
    generateLocalizationTypes ⟨[⟨[[("a", JSValue.str "x")]]⟩], none⟩ =
      generateLocalizationTypes ⟨[⟨[[("a", JSValue.str "x")]]⟩], none⟩ :=
  c8_pipeline_deterministic.1 _ _ rfl

/-- C9: the core functions are total: merging any Shape Trees succeeds
(no error of the merge's own), the whole per-instance generation succeeds
on Shape-Tree content, any string parses — zero placeholders yield the
empty parameter list and malformed placeholder text (an unterminated
brace) yields no parameter rather than failing. -/
theorem c9_core_functions_total :
    (∀ tgt src : List (String × JSValue), isShape (.obj tgt) = true →
      isShape (.obj src) = true →
      ∃ r, deepMerge tgt src = .ok r ∧ isShape (.obj r) = true)
    ∧ (∀ sources : List (List (String × JSValue)),
        (∀ src ∈ sources, isShape (.obj src) = true) →
        ∃ r, mergeLocaleData sources = .ok r)
    ∧ (∀ (tessen : Tessen) (ci : Option Nat),
        (∀ src ∈ tessen.contentData, isShape (.obj src) = true) →
        ∃ s, generateTessenDeclaration tessen ci = .ok s)
    ∧ extractParameters "hello world" = []
    ∧ extractParameters "\x7b0 is unterminated" = []
    ∧ generateFunctionSignature "\x7b0 is unterminated" = "() => string" := by
  refine ⟨fun tgt src ht hs => deepMerge_shape_ok ht hs, ?_, ?_, ?_, ?_, ?_⟩
  · intro sources hs
    obtain ⟨r, hr, -⟩ := mergeLocaleDataLoop_shape_ok sources [] (by simp [isShape]) hs
    exact ⟨r, hr⟩
  · intro tessen ci hs
    obtain ⟨r, hr, -⟩ := mergeLocaleDataLoop_shape_ok tessen.contentData []
      (by simp [isShape]) hs
    have he : extractPlainLocaleDataFromTessen tessen = .ok r := hr
    refine ⟨"declare global \x7b" ++ clientSuffix ci
        ++ "\n  namespace Tessen \x7b\n    interface Localization \x7b\n"
        ++ processLocaleData r
        ++ "\n    \x7d\n  \x7d\n\x7d\n    \nexport \x7b \x7d;", ?_⟩
    simp only [generateTessenDeclaration, he]
  · simp [extractParameters, extractLoop_cons, extractLoop]
  · simp +decide [extractParameters, extractLoop_cons, extractLoop, matchPlaceholder,
      List.takeWhile_cons, List.dropWhile_cons]
  · simp +decide [generateFunctionSignature, extractParameters, extractLoop_cons,
      extractLoop, matchPlaceholder, List.takeWhile_cons, List.dropWhile_cons]

/-- Witness for C9: merging two concrete Shape Trees succeeds. -/
theorem c9_core_functions_total_witness :
    ∃ r, mergeLocaleData [[("a", JSValue.str "x")], [("a", JSValue.obj [])]] = .ok r :=
  c9_core_functions_total.2.1 [[("a", JSValue.str "x")], [("a", JSValue.obj [])]] (by
    intro src hsrc
    simp only [List.mem_cons, List.not_mem_nil, or_false] at hsrc
    rcases hsrc with rfl | rfl
    · simp [isShape]
    · simp [isShape])

/-- C10: a key whose value is neither a string nor a non-null object (a
number, a boolean, or `null`) produces no output line: it is silently
omitted without error and without affecting the other keys. -/
theorem c10_emitter_skips_non_renderable :
    (∀ (k : String) (v : JSValue) (rest : List (String × JSValue)) (depth : Nat),
      (∀ s, v ≠ JSValue.str s) → (∀ fs, v ≠ JSValue.obj fs) →
      processEntries ((k, v) :: rest) depth = processEntries rest depth)
    ∧ processLocaleData [("a", .str "x"), ("b", .num 5), ("c", .boolean true),
        ("d", .null), ("e", .str "y")] =
      processLocaleData [("a", .str "x"), ("e", .str "y")] := by
  refine ⟨processEntries_skip, ?_⟩
  rw [processLocaleData, processLocaleData]
  rw [processEntries_eq_flatMap, processEntries_eq_flatMap]
  simp [renderEntry]

/-- Witness for C10: a numeric value contributes no lines. -/
theorem c10_emitter_skips_non_renderable_witness :
    processEntries [("b", JSValue.num 5)] 0 = processEntries [] 0 :=
  c10_emitter_skips_non_renderable.1 "b" (JSValue.num 5) [] 0
    (fun s h => JSValue.noConfusion h) (fun fs h => JSValue.noConfusion h)

/-- Every successfully generated block opens with `declare global \x7b`, then
exactly the client suffix, then a newline. -/
theorem generateTessenDeclaration_ok_prefix {tessen : Tessen} {ci : Option Nat}
    {s : String} (h : generateTessenDeclaration tessen ci = .ok s) :
    ∃ rest, s = "declare global \x7b" ++ clientSuffix ci ++ "\n" ++ rest := by
  obtain ⟨ld, hld, hb⟩ := generateTessenDeclaration_ok_shape h
  refine ⟨"  namespace Tessen \x7b\n    interface Localization \x7b\n"
      ++ processLocaleData ld ++ "\n    \x7d\n  \x7d\n\x7d\n    \nexport \x7b \x7d;", ?_⟩
  rw [hb]
  have hsplit : ("\n  namespace Tessen \x7b\n    interface Localization \x7b\n" : String)
      = "\n" ++ "  namespace Tessen \x7b\n    interface Localization \x7b\n" := rfl
  rw [hsplit]
  simp only [String.append_assoc]

/-- C3: the orchestrator processes Sources in input order, joins the blocks
with one blank line, generates the i-th block with client index i exactly
when there is more than one Source, and the block's header carries the
corresponding suffix — empty for a single Source (no client-ordinal
annotation), ` // Client i+1` otherwise. -/
theorem c3_orchestrator_order_and_tagging (cfg : TypeGenerationConfig)
    (blocks : List String)
    (h : generateDeclarationsLoop cfg.tessens.length cfg.tessens.enum = .ok blocks) :
    generateLocalizationTypes cfg = .ok (String.intercalate "\n\n" blocks)
    ∧ blocks.length = cfg.tessens.length
    ∧ (∀ i (hi : i < cfg.tessens.length) (hi' : i < blocks.length),
        generateTessenDeclaration (cfg.tessens.get ⟨i, hi⟩)
          (if cfg.tessens.length > 1 then some i else none) = .ok (blocks.get ⟨i, hi'⟩))
    ∧ (∀ i (hi' : i < blocks.length), ∃ rest,
        blocks.get ⟨i, hi'⟩ = "declare global \x7b"
          ++ clientSuffix (if cfg.tessens.length > 1 then some i else none)
          ++ "\n" ++ rest)
    ∧ clientSuffix none = ""
    ∧ (∀ i : Nat, clientSuffix (some i) = " // Client " ++ toString (i + 1)) := by
  obtain ⟨hlen, hidx⟩ :=
    generateDeclarationsLoop_spec cfg.tessens.length cfg.tessens.enum blocks h
  rw [List.enum_length] at hlen
  have hidx' : ∀ i (hi : i < cfg.tessens.length) (hi' : i < blocks.length),
      generateTessenDeclaration (cfg.tessens.get ⟨i, hi⟩)
        (if cfg.tessens.length > 1 then some i else none) = .ok (blocks.get ⟨i, hi'⟩) := by
    intro i hi hi'
    have hie : i < cfg.tessens.enum.length := by
      rw [List.enum_length]
      exact hi
    have hthis := hidx i hie hi'
    rw [List.get_eq_getElem, List.getElem_enum] at hthis
    simpa using hthis
  refine ⟨?_, hlen, hidx', ?_, rfl, fun i => rfl⟩
  · rw [generateLocalizationTypes, h]
  · intro i hi'
    have hi : i < cfg.tessens.length := hlen ▸ hi'
    exact generateTessenDeclaration_ok_prefix (hidx' i hi hi')

/-- Witness for C3 at a concrete single-Source configuration. -/
theorem c3_orchestrator_order_and_tagging_witness :
    generateLocalizationTypes ⟨[⟨[[("a", JSValue.str "x")]]⟩], none⟩ =
      .ok (String.intercalate "\n\n"
        ["declare global \x7b\n  namespace Tessen \x7b\n    interface Localization \x7b\n      a: () => string;\n    \x7d\n  \x7d\n\x7d\n    \nexport \x7b \x7d;"]) :=
  (c3_orchestrator_order_and_tagging ⟨[⟨[[("a", JSValue.str "x")]]⟩], none⟩
    ["declare global \x7b\n  namespace Tessen \x7b\n    interface Localization \x7b\n      a: () => string;\n    \x7d\n  \x7d\n\x7d\n    \nexport \x7b \x7d;"]
    (by
      simp +decide [generateDeclarationsLoop, generateTessenDeclaration,
        extractPlainLocaleDataFromTessen, mergeLocaleDataLoop, deepMerge, setField, updateField, insertFieldNew, isArrayIndex, decimalValue,
        clientSuffix, processLocaleData, processEntries, generateFunctionSignature,
        extractParameters, extractLoop_cons, extractLoop, indentStr,
        String.intercalate, List.replicate, List.enum, List.enumFrom])).1

/-- C4: each Shape Tree's rendered body is wrapped once in the fixed
`declare global \x7b namespace Tessen \x7b interface Localization \x7b ... \x7d \x7d \x7d`
boilerplate followed by the `export \x7b \x7d;` marker line, and when several
blocks are concatenated each keeps its own enclosing block, separated by
one blank line. -/
theorem c4_block_boilerplate_and_marker :
    (∀ (tessen : Tessen) (ci : Option Nat) (localeData : List (String × JSValue)),
      extractPlainLocaleDataFromTessen tessen = .ok localeData →
      generateTessenDeclaration tessen ci = .ok
        ("declare global \x7b" ++ clientSuffix ci
          ++ "\n  namespace Tessen \x7b\n    interface Localization \x7b\n"
          ++ processLocaleData localeData
          ++ "\n    \x7d\n  \x7d\n\x7d\n    \nexport \x7b \x7d;"))
    ∧ (∀ (tessen : Tessen) (ci : Option Nat) (s : String),
        generateTessenDeclaration tessen ci = .ok s →
        ∃ pre, s = pre ++ "export \x7b \x7d;")
    ∧ (∀ (t1 t2 : Tessen) (s1 s2 : String),
        generateTessenDeclaration t1 (some 0) = .ok s1 →
        generateTessenDeclaration t2 (some 1) = .ok s2 →
        generateLocalizationTypes ⟨[t1, t2], none⟩ = .ok (s1 ++ "\n\n" ++ s2)) := by
  refine ⟨?_, ?_, ?_⟩
  · intro tessen ci ld h
    simp only [generateTessenDeclaration, h]
  · intro tessen ci s h
    obtain ⟨ld, -, hb⟩ := generateTessenDeclaration_ok_shape h
    refine ⟨"declare global \x7b" ++ clientSuffix ci
        ++ "\n  namespace Tessen \x7b\n    interface Localization \x7b\n"
        ++ processLocaleData ld ++ "\n    \x7d\n  \x7d\n\x7d\n    \n", ?_⟩
    rw [hb]
    have hsplit : ("\n    \x7d\n  \x7d\n\x7d\n    \nexport \x7b \x7d;" : String)
        = "\n    \x7d\n  \x7d\n\x7d\n    \n" ++ "export \x7b \x7d;" := rfl
    rw [hsplit]
    simp only [String.append_assoc]
  · intro t1 t2 s1 s2 h1 h2
    have hif0 : (if (2:Nat) > 1 then some (0:Nat) else none) = some 0 := rfl
    have hif1 : (if (2:Nat) > 1 then some (1:Nat) else none) = some 1 := rfl
    have hloop : generateDeclarationsLoop 2 [(0, t1), (1, t2)] = Except.ok [s1, s2] := by
      simp only [generateDeclarationsLoop, hif0, hif1, h1, h2]
    rw [show generateLocalizationTypes ⟨[t1, t2], none⟩
        = (match generateDeclarationsLoop 2 [(0, t1), (1, t2)] with
           | .ok declarations => Except.ok (String.intercalate "\n\n" declarations)
           | .error e => Except.error e) from rfl]
    rw [hloop]
    simp [String.intercalate, String.intercalate.go]

/-- Witness for C4 at a concrete single-entry instance. -/
theorem c4_block_boilerplate_and_marker_witness :
    generateTessenDeclaration ⟨[[("a", JSValue.str "x")]]⟩ none = .ok
      ("declare global \x7b" ++ clientSuffix none
        ++ "\n  namespace Tessen \x7b\n    interface Localization \x7b\n"
        ++ processLocaleData [("a", JSValue.str "x")]
        ++ "\n    \x7d\n  \x7d\n\x7d\n    \nexport \x7b \x7d;") :=
  c4_block_boilerplate_and_marker.1 ⟨[[("a", JSValue.str "x")]]⟩ none
    [("a", JSValue.str "x")]
    (by simp [extractPlainLocaleDataFromTessen, mergeLocaleDataLoop, deepMerge, setField, updateField, insertFieldNew, isArrayIndex, decimalValue])
